import Mathlib

/-!
Verification of the `ref-struct-bitfield` layout engine and bitfield
accessors.

The development is a shallow embedding of `src/struct.js`, `src/bitfield.js`
and the union module (`src/unnamed/part_000`, the `ref-union` variant).
Machine integers are modelled as `Nat`/`Int`; JavaScript `BigInt` arithmetic
in the accessors is translated literally: `x >> k` (arithmetic shift of a
BigInt) is `x / 2 ^ k` on `Int` (Lean's `/` on `Int` is Euclidean division,
which floors for positive divisors), `x & mask` with `mask = 2 ^ b - 1` is
`x % 2 ^ b` (Euclidean remainder, matching BigInt `&` with a non-negative
mask), `x << k` is `x * 2 ^ k`, `x | y` is `Int.lor`, and
`BigInt.asIntN b x` is `asIntN b x` below.

The external type provider (the `ref` package) is not part of the
repository; its scalar read/write contract is modelled from the spec's
type-provider interface: a storage unit of byte size `s` is represented by
its bit pattern, a natural number `p < 2 ^ (8 * s)`; reading it yields the
signed (two's-complement) or unsigned value of that pattern, and writing an
integer stores its low `8 * s` bits.

JavaScript objects that hold fields (`StructType.fields`) are modelled as
association lists in insertion order, matching `Object.keys` enumeration
order for string keys; `this.fields[name] = field` keeps the original
position when the key exists and appends otherwise. Errors raised by
`assert` are modelled as `StructErr` values; since an assertion failure in
JavaScript aborts the call but keeps all mutations already performed, the
fallible operations return the (possibly partially mutated) schema together
with an optional error.

`ref-array` types (the `fixedLength` branch of `recalc`) come from another
external package and are outside the model; the field kinds below are the
plain scalar types and the bitfield specs that the repository itself
defines.
-/

namespace RefStructBitfield

/-- Platform constants of the external type provider: `ref.sizeof.pointer`
and `ref.alignof.pointer`. -/
structure RefCfg where
  pointerSize : Nat
  pointerAlignment : Nat
deriving DecidableEq

/-- A primitive type descriptor supplied by the type provider: byte size,
byte alignment, indirection level (1 for a value type, larger for a
pointer), and signedness. Signedness is what `isSignedInteger` in
`struct.js` computes by writing the bit pattern of `-1` and reading it
back. -/
structure PrimType where
  size : Nat
  alignment : Nat
  indirection : Nat
  signed : Bool
deriving DecidableEq

/-- A declared field type: either a plain provider type or the object
returned by the `Bitfield` constructor of `src/bitfield.js`, which wraps an
underlying type with a bit width and copies its `size` and `alignment`
(with `indirection` fixed at 1). -/
inductive FieldType
  | plain (t : PrimType)
  | bitfield (underlying : PrimType) (bits : Nat)
deriving DecidableEq

/-- The `size` property of a declared type (`type.size` in the source; the
`Bitfield` constructor sets it to the underlying type's size). -/
def FieldType.size : FieldType → Nat
  | .plain t => t.size
  | .bitfield u _ => u.size

/-- The `alignment` property of a declared type. -/
def FieldType.alignment : FieldType → Nat
  | .plain t => t.alignment
  | .bitfield u _ => u.alignment

/-- The `indirection` property of a declared type; the `Bitfield`
constructor always sets it to 1. -/
def FieldType.indirection : FieldType → Nat
  | .plain t => t.indirection
  | .bitfield _ _ => 1

/-- The `bits` property of a declared type. Plain types have no `bits`
property in the source, and `undefined` is falsy, so they are modelled with
`bits = 0`; every truthiness test `type.bits` in the source becomes
`bits ≠ 0`. -/
def FieldType.bits : FieldType → Nat
  | .plain _ => 0
  | .bitfield _ b => b

/-- The `Bitfield (type, bits)` constructor of `src/bitfield.js`: a falsy
`bits` argument (omitted, `0`, ...) defaults to width 1, and the coerced
type must not be a pointer (`assert(1 === type.indirection)`); the assert
failure is modelled as `none`. -/
def Bitfield (t : PrimType) (bits : Nat) : Option FieldType :=
  let bits := if bits = 0 then 1 else bits
  if t.indirection = 1 then some (FieldType.bitfield t bits) else none

/-- Per-field layout data stored on the field object by
`internalDefineProperty` (`{type}`) and filled in by `recalc`
(`offset`, `bitStart`, `bits`, `mask`). A freshly defined field has the
layout slots at their default values (`undefined` in the source). -/
structure FieldInfo where
  type : FieldType
  offset : Nat := 0
  bitStart : Nat := 0
  bits : Nat := 0
  mask : Nat := 0
deriving DecidableEq

/-- A fresh field object, as built by `internalDefineProperty`:
`const field = {type}`. -/
def FieldInfo.fresh (t : FieldType) : FieldInfo := { type := t }

/-- The mutable schema state carried by a `StructType`: the ordered field
table, the computed `size` and `alignment`, the `packed` option, and the
`_instanceCreated` freeze flag. -/
structure Schema where
  fields : List (String × FieldInfo)
  size : Nat
  alignment : Nat
  isPacked : Bool
  instanceCreated : Bool
deriving DecidableEq

/-- The schema of `Struct()` right after the option processing, before any
field is applied. -/
def emptySchema (packed : Bool) : Schema :=
  { fields := [], size := 0, alignment := 0, isPacked := packed, instanceCreated := false }

/-- Error conditions raised by `assert` in the source. `frozenSchema` is
the instance-already-created assert, `invalidType` the size-check assert of
`internalDefineProperty`, `bitfieldOverflow` the width assert of `recalc`,
and `unaligned` the offset-alignment assert of `addType`. -/
inductive StructErr
  | frozenSchema
  | invalidType
  | bitfieldOverflow
  | unaligned
deriving DecidableEq

/-- JavaScript keyed assignment `fields[name] = fi`: replace in place when
the key exists, append otherwise. -/
def upsert (fields : List (String × FieldInfo)) (name : String) (fi : FieldInfo) :
    List (String × FieldInfo) :=
  if fields.any (fun nf => nf.1 = name) then
    fields.map (fun nf => if nf.1 = name then (name, fi) else nf)
  else
    fields ++ [(name, fi)]

/-- The `internalDefineProperty(name, type)` validation and field-table
mutation of `struct.js`. The freeze assert and the size assert run before
the mutation; the remaining asserts (the name is a string, the type is an
object with `size` and `indirection`) always hold in this model. Defining
the accessor property on the prototype never fails, for any name. -/
def internalDefineProperty (s : Schema) (name : String) (t : FieldType) :
    Schema × Option StructErr :=
  if s.instanceCreated then
    (s, some StructErr.frozenSchema)
  else if ¬ (t.indirection > 1 ∨ t.size > 0) then
    (s, some StructErr.invalidType)
  else
    let s' : Schema := { s with fields := upsert s.fields name (FieldInfo.fresh t) }
    (s', none)

/-- Pass-1 natural alignment of one field:
`type.alignment || ref.alignof.pointer`, overridden by the pointer
alignment when `indirection > 1`. -/
def fieldAlign1 (cfg : RefCfg) (t : FieldType) : Nat :=
  let a := if t.alignment = 0 then cfg.pointerAlignment else t.alignment
  if t.indirection > 1 then cfg.pointerAlignment else a

/-- The first `recalc` loop: fold `Math.min(struct.alignment || a, a)` when
packed, `Math.max(struct.alignment, a)` otherwise, starting from the reset
value 0. -/
def computeAlignment (cfg : RefCfg) (packed : Bool) (fields : List (String × FieldInfo)) : Nat :=
  fields.foldl
    (fun acc nf =>
      let a := fieldAlign1 cfg nf.2.type
      if packed then Nat.min (if acc = 0 then a else acc) a else Nat.max acc a)
    0

/-- The bitfield-group state carried across the second `recalc` loop:
`struct.size`, `struct.currBits`, `struct.lastBitfieldType`, and
`struct.lastBitfieldOffset`. -/
structure RState where
  size : Nat
  currBits : Nat
  lastBT : Option FieldType
  lastOffset : Nat
deriving DecidableEq

/-- The bit-mask loop of `recalc`:
`for (...) field.mask = (field.mask << 1n) | 1n`, iterated `bits` times
from 0. -/
def mkMask : Nat → Nat
  | 0 => 0
  | b + 1 => 2 * mkMask b + 1

/-- The bitfield arm of the second `recalc` loop (after the width assert
has passed). `typeDifferent` compares only `size` and `alignment` with the
previous bitfield's type, and is true when there is no previous bitfield
(`?.` on `null` yields `undefined`, which differs from any number). -/
def bitfieldLayout (packed : Bool) (st : RState) (fi : FieldInfo) : RState × FieldInfo :=
  let t := fi.type
  let newCurrBits0 := st.currBits + t.bits
  let typeDifferent :=
    match st.lastBT with
    | none => true
    | some l => (l.size != t.size) || (l.alignment != t.alignment)
  let bitsInsufficient := decide (newCurrBits0 > 8 * t.size)
  let firstFieldInGroup := typeDifferent || bitsInsufficient
  let currBits := if firstFieldInGroup then 0 else st.currBits
  let newCurrBits := if firstFieldInGroup then t.bits else newCurrBits0
  let size1 :=
    if typeDifferent then
      st.size + (if packed then 0 else (t.alignment - st.size % t.alignment) % t.alignment)
    else st.size
  let offset := if firstFieldInGroup then size1 else st.lastOffset
  let lastOffset := if firstFieldInGroup then offset else st.lastOffset
  let size2 := if firstFieldInGroup then size1 + t.size else size1
  ({ size := size2, currBits := newCurrBits, lastBT := some t, lastOffset := lastOffset },
   { fi with offset := offset, bitStart := currBits, bits := t.bits, mask := mkMask t.bits })

/-- The `addType` helper of `recalc`, used for plain fields: pad the
current size up to the field's alignment (pointer alignment when
`indirection > 1`), assert the offset is aligned when not packed, and
advance the size by the field's byte size (pointer size when
`indirection > 1`). -/
def addType (cfg : RefCfg) (packed : Bool) (st : RState) (fi : FieldInfo) :
    Except StructErr (RState × FieldInfo) :=
  let t := fi.type
  let offset0 := st.size
  let align := if t.indirection = 1 then t.alignment else cfg.pointerAlignment
  let padding := if packed then 0 else (align - offset0 % align) % align
  let size := if t.indirection = 1 then t.size else cfg.pointerSize
  let offset := offset0 + padding
  if ¬ packed ∧ offset % align ≠ 0 then Except.error StructErr.unaligned
  else Except.ok ({ st with size := offset + size }, { fi with offset := offset })

/-- One iteration of the second `recalc` loop: clear the bitfield-group
state on a non-bitfield field, then dispatch to the bitfield arm (behind
its width assert) or to `addType`. -/
def layoutStep (cfg : RefCfg) (packed : Bool) (st0 : RState) (fi : FieldInfo) :
    Except StructErr (RState × FieldInfo) :=
  let t := fi.type
  let st := if t.bits = 0 then { st0 with currBits := 0, lastBT := none } else st0
  if t.bits ≠ 0 then
    if t.bits ≤ t.size * 8 then Except.ok (bitfieldLayout packed st fi)
    else Except.error StructErr.bitfieldOverflow
  else
    addType cfg packed st fi

/-- The second `recalc` loop over the field table. A failing assert aborts
the loop: fields already processed keep their updated layout, the failing
field and all later ones keep their previous layout, and the running state
at the failure point is returned. -/
def recalcGo (cfg : RefCfg) (packed : Bool) :
    RState → List (String × FieldInfo) →
    List (String × FieldInfo) × RState × Option StructErr
  | st, [] => ([], st, none)
  | st, (n, fi) :: rest =>
    match layoutStep cfg packed st fi with
    | Except.error e => ((n, fi) :: rest, st, some e)
    | Except.ok (st', fi') =>
      match recalcGo cfg packed st' rest with
      | (rest', st'', e) => ((n, fi') :: rest', st'', e)

/-- The trailing-padding step of `recalc`: pad `size` up to a multiple of
`alignment` when the remainder is positive. -/
def addFinalPadding (size align : Nat) : Nat :=
  let left := size % align
  if left > 0 then size + (align - left) else size

/-- The reset layout state at the start of `recalc`: size and used bits
cleared, no previous bitfield type. (`lastBitfieldOffset` starts
uninitialised in the source but is only ever read after a group start has
set it, so its initial value is irrelevant; it is 0 here.) -/
def initRState : RState :=
  { size := 0, currBits := 0, lastBT := none, lastOffset := 0 }

/-- The `recalc(struct)` relayout of `struct.js`: reset size and alignment,
run the alignment pass, run the offset pass from a cleared bitfield-group
state, and add the final padding. When an assert fails mid-loop the
struct keeps the recomputed alignment and the partial size, the final
padding is not applied, and the error is reported. -/
def recalc (cfg : RefCfg) (s : Schema) : Schema × Option StructErr :=
  let alignment := computeAlignment cfg s.isPacked s.fields
  match recalcGo cfg s.isPacked initRState s.fields with
  | (fields', st, none) =>
    let s' : Schema :=
      { s with
        fields := fields',
        size := addFinalPadding st.size alignment,
        alignment := alignment }
    (s', none)
  | (fields', st, some e) =>
    let s' : Schema := { s with fields := fields', size := st.size, alignment := alignment }
    (s', some e)

/-- `StructType.defineProperty(name, type)`: run the internal definition
and, if it did not throw, relayout. -/
def defineProperty (cfg : RefCfg) (s : Schema) (name : String) (t : FieldType) :
    Schema × Option StructErr :=
  match internalDefineProperty s name t with
  | (s', none) => recalc cfg s'
  | (s', some e) => (s', some e)

/-- The field-application loop shared by the `Struct` constructor and
`defineProperties`: apply `internalDefineProperty` to each entry in order,
aborting on the first failure (mutations already performed persist). -/
def addAll (s : Schema) : List (String × FieldType) → Schema × Option StructErr
  | [] => (s, none)
  | (n, t) :: rest =>
    match internalDefineProperty s n t with
    | (s', none) => addAll s' rest
    | (s', some e) => (s', some e)

/-- `StructType.defineProperties(obj)`: apply every entry, then relayout
once. -/
def defineProperties (cfg : RefCfg) (s : Schema) (l : List (String × FieldType)) :
    Schema × Option StructErr :=
  match addAll s l with
  | (s', none) => recalc cfg s'
  | (s', some e) => (s', some e)

/-- The `Struct(fields, opts)` meta-constructor: start from the empty
schema, apply every declared field, then relayout once. -/
def Struct (cfg : RefCfg) (packed : Bool) (l : List (String × FieldType)) :
    Schema × Option StructErr :=
  match addAll (emptySchema packed) l with
  | (s, none) => recalc cfg s
  | (s, some e) => (s, some e)

/-- The schema effect of constructing an instance (`new StructType(...)`):
the constructor ends with `StructType._instanceCreated = true`, freezing
the schema against further field definitions. -/
def structNew (s : Schema) : Schema := { s with instanceCreated := true }

/-!
The union module. Union fields carry no offset: the generated accessors
read and write at offset 0 unconditionally, and `recalc` there only
computes the aggregate size and alignment.
-/

/-- The byte size a union member contributes:
`type.indirection === 1 ? type.size : ref.sizeof.pointer`. -/
def unionMemberSize (cfg : RefCfg) (t : FieldType) : Nat :=
  if t.indirection = 1 then t.size else cfg.pointerSize

/-- The `recalc(union)` loop of the union module: fold `Math.max` over the
member sizes and natural alignments, then add the final padding. -/
def unionRecalc (cfg : RefCfg) (fields : List (String × FieldType)) : Nat × Nat :=
  let sa :=
    fields.foldl
      (fun (acc : Nat × Nat) nf =>
        let size := unionMemberSize cfg nf.2
        let alignment := fieldAlign1 cfg nf.2
        (Nat.max acc.1 size, Nat.max acc.2 alignment))
      (0, 0)
  (addFinalPadding sa.1 sa.2, sa.2)

/-- Union layout as the spec words it: `size = max over fields of
(indirection>1 ? pointerSize : type.size)`, `alignment = max over fields of
(indirection>1 ? pointerAlignment : type.alignment)`, final size padded up
to a multiple of alignment. Stated as a second definition to compare with
`unionRecalc`, which is translated from the source. -/
def specUnionLayout (cfg : RefCfg) (fields : List (String × FieldType)) : Nat × Nat :=
  let size :=
    (fields.map (fun nf => if nf.2.indirection > 1 then cfg.pointerSize else nf.2.size)).foldr
      Nat.max 0
  let alignment :=
    (fields.map
        (fun nf => if nf.2.indirection > 1 then cfg.pointerAlignment else nf.2.alignment)).foldr
      Nat.max 0
  (addFinalPadding size alignment, alignment)

/-!
The bitfield accessors of `internalDefineProperty` (`desc.get` /
`desc.set` for a type with `bits`). A storage unit of the underlying type
`t` at the field's offset is represented by its bit pattern, a natural
number below `2 ^ (8 * t.size)`.
-/

/-- `BigInt.asIntN b x`: the integer congruent to `x` modulo `2 ^ b` in
the interval from `-2 ^ (b - 1)` to `2 ^ (b - 1) - 1`. -/
def asIntN (b : Nat) (x : Int) : Int :=
  let r := x % (2 : Int) ^ b
  if r < (2 : Int) ^ (b - 1) then r else r - (2 : Int) ^ b

/-- The scalar read `ref.get(buffer, offset, type)` of the full storage
unit, modelled from the spec's type-provider contract on the unit's bit
pattern: a signed type yields the two's-complement value of the pattern, an
unsigned type the pattern itself. The accessor wraps the result in
`BigInt(...)`, which does not change the value. -/
def refGetUnit (t : PrimType) (p : Nat) : Int :=
  if t.signed then asIntN (8 * t.size) (p : Int) else (p : Int)

/-- The scalar write `ref.set(buffer, offset, val, type)`, modelled from
the spec's type-provider contract: the low `8 × size` bits of the written
value become the unit's new pattern. The `Number(val)` / `String(val)`
conversions the source performs before the write do not change the value
written. -/
def refSetUnit (t : PrimType) (v : Int) : Nat :=
  (v % (2 : Int) ^ (8 * t.size)).toNat

/-- The bitfield getter `desc.get`: read the full storage unit, shift
right by `bitStart` (BigInt `>>` is flooring division by `2 ^ bitStart`),
mask with `mask = 2 ^ bits - 1` (BigInt `&` with that mask is the
remainder modulo `2 ^ bits`), and sign-extend from `bits` bits when the
underlying type is signed. The final `Number(...)` narrowing for small
types does not change the value. -/
def bfGet (t : PrimType) (bits bitStart : Nat) (p : Nat) : Int :=
  let value := refGetUnit t p
  let value := value / (2 : Int) ^ bitStart % (2 : Int) ^ bits
  if t.signed then asIntN bits value else value

/-- The bitfield setter `desc.set`: read the full storage unit, OR in the
new bits (`val = val | ((BigInt(value) & field.mask) << field.bitStart)`,
with `& mask` as remainder modulo `2 ^ bits` and `<< bitStart` as
multiplication by `2 ^ bitStart`), apply `BigInt.asIntN` to the full
underlying width when the type is signed, and write the result back. -/
def bfSet (t : PrimType) (bits bitStart : Nat) (p : Nat) (value : Int) : Nat :=
  let val := refGetUnit t p
  let val := Int.lor val (value % (2 : Int) ^ bits * (2 : Int) ^ bitStart)
  let val := if t.signed then asIntN (8 * t.size) val else val
  refSetUnit t val

/-!
Concrete provider types used by the worked examples, with the sizes,
alignments and signedness the `ref` package gives them on a 64-bit
platform.
-/

/-- The platform constants of a 64-bit target. -/
def cfg64 : RefCfg := { pointerSize := 8, pointerAlignment := 8 }

/-- `ref.types.int64`. -/
def int64T : PrimType := { size := 8, alignment := 8, indirection := 1, signed := true }

/-- `ref.types.int8`. -/
def int8T : PrimType := { size := 1, alignment := 1, indirection := 1, signed := true }

/-- `ref.types.uint8`: same size and alignment as `int8`, different
declared type. -/
def uint8T : PrimType := { size := 1, alignment := 1, indirection := 1, signed := false }

/-- `ref.types.int`. -/
def intT : PrimType := { size := 4, alignment := 4, indirection := 1, signed := true }

/-- The declared field list of the worked example: three `int64`-underlying
bitfields of widths 7, 2, 2, then three `int8`-underlying bitfields of
widths 7, 2, 2, an `int`-underlying bitfield of width 2, a plain `int8`
field, and three `int64`-underlying bitfields of widths 2, 62, 1. -/
def exampleFields : List (String × FieldType) :=
  [("a", FieldType.bitfield int64T 7), ("b", FieldType.bitfield int64T 2),
   ("c", FieldType.bitfield int64T 2),
   ("d", FieldType.bitfield int8T 7), ("e", FieldType.bitfield int8T 2),
   ("f", FieldType.bitfield int8T 2),
   ("g", FieldType.bitfield intT 2), ("h", FieldType.plain int8T),
   ("i", FieldType.bitfield int64T 2), ("j", FieldType.bitfield int64T 62),
   ("k", FieldType.bitfield int64T 1)]

/-- A provider type whose byte size (4) is not a multiple of its alignment
(8); such descriptors are accepted by `internalDefineProperty` and exercise
the trailing-padding arithmetic. -/
def padded48T : PrimType := { size := 4, alignment := 8, indirection := 1, signed := false }

/-- `ref.types.uchar`-style one-byte unsigned type used by the packed
counterexample. -/
def byte1T : PrimType := { size := 1, alignment := 1, indirection := 1, signed := false }

/-- A non-packed schema holding one `padded48T` field; its size is 4 padded
up to 8. -/
def schemaBeforeBadAdd : Schema := (Struct cfg64 false [("a", FieldType.plain padded48T)]).1

/-- A packed schema holding one `padded48T` field; its size is 4 padded up
to the struct alignment 8. -/
def packedSchemaA : Schema := (defineProperty cfg64 (emptySchema true) "a"
  (FieldType.plain padded48T)).1

/-!
Arithmetic facts about the padding expression
`size + (align - size % align) % align` that `recalc` uses between fields
and (in its `left`-based form) as trailing padding.
-/

/-- The padding expression of `recalc` as one function: the least multiple
of `a` that is at least `s` (for positive `a`; the identity for `a = 0`). -/
def padTo (s a : Nat) : Nat := s + (a - s % a) % a

theorem le_padTo (s a : Nat) : s ≤ padTo s a := Nat.le_add_right _ _

theorem padTo_zero (s : Nat) : padTo s 0 = s := by
  simp [padTo, Nat.mod_zero, Nat.zero_sub]

theorem padTo_dvd (s a : Nat) (ha : 1 ≤ a) : a ∣ padTo s a := by
  unfold padTo
  rcases Nat.eq_zero_or_pos (s % a) with he | he
  · rw [he, Nat.sub_zero, Nat.mod_self, Nat.add_zero]
    exact Nat.dvd_of_mod_eq_zero he
  · have hlt : s % a < a := Nat.mod_lt _ ha
    have h1 : (a - s % a) % a = a - s % a := Nat.mod_eq_of_lt (by omega)
    rw [h1]
    have h2 := Nat.div_add_mod s a
    have h3 : s + (a - s % a) = a * (s / a + 1) := by
      rw [Nat.mul_add, Nat.mul_one]
      omega
    rw [h3]
    exact Dvd.intro _ rfl

theorem padTo_le (s a m : Nat) (hm : a ∣ m) (hsm : s ≤ m) : padTo s a ≤ m := by
  rcases Nat.eq_zero_or_pos a with ha | ha
  · rw [ha, padTo_zero]; exact hsm
  · obtain ⟨k, rfl⟩ := hm
    rcases Nat.eq_zero_or_pos (s % a) with he | he
    · unfold padTo
      rw [he, Nat.sub_zero, Nat.mod_self, Nat.add_zero]
      exact hsm
    · have hlt : s % a < a := Nat.mod_lt _ ha
      have h1 : (a - s % a) % a = a - s % a := Nat.mod_eq_of_lt (by omega)
      unfold padTo
      rw [h1]
      have h2 := Nat.div_add_mod s a
      have hk : s / a < k := by
        by_contra hc
        push_neg at hc
        have := Nat.mul_le_mul_left a hc
        omega
      have h4 : a * (s / a + 1) ≤ a * k := Nat.mul_le_mul_left a hk
      rw [Nat.mul_add, Nat.mul_one] at h4
      omega

theorem padTo_mono (s t a : Nat) (hst : s ≤ t) : padTo s a ≤ padTo t a := by
  rcases Nat.eq_zero_or_pos a with ha | ha
  · rw [ha, padTo_zero, padTo_zero]; exact hst
  · exact padTo_le s a (padTo t a) (padTo_dvd t a ha) (le_trans hst (le_padTo t a))

theorem padTo_le_add (s a : Nat) : padTo s a ≤ s + a := by
  unfold padTo
  rcases Nat.eq_zero_or_pos a with ha | ha
  · rw [ha]; simp [Nat.mod_zero, Nat.zero_sub]
  · have : (a - s % a) % a < a := Nat.mod_lt _ ha
    omega

theorem padTo_add_of_dvd (o z a : Nat) (ho : a ∣ o) : padTo (o + z) a = o + padTo z a := by
  rcases Nat.eq_zero_or_pos a with ha | ha
  · rw [ha, padTo_zero, padTo_zero]
  · obtain ⟨k, rfl⟩ := ho
    unfold padTo
    have hmod : (a * k + z) % a = z % a := by
      rw [Nat.add_comm, Nat.add_mul_mod_self_left]
    rw [hmod]
    omega

theorem padTo_pos_ge (z a : Nat) (hz : 1 ≤ z) (ha : 1 ≤ a) : a ≤ padTo z a := by
  have h1 := le_padTo z a
  exact Nat.le_of_dvd (by omega) (padTo_dvd z a ha)

theorem addFinalPadding_eq_padTo (s a : Nat) : addFinalPadding s a = padTo s a := by
  unfold addFinalPadding padTo
  rcases Nat.eq_zero_or_pos a with ha | ha
  · subst ha
    simp [Nat.mod_zero, Nat.zero_sub]
  · rcases Nat.eq_zero_or_pos (s % a) with he | he
    · rw [he, Nat.sub_zero, Nat.mod_self]
      simp
    · have hlt : s % a < a := Nat.mod_lt _ ha
      have h1 : (a - s % a) % a = a - s % a := Nat.mod_eq_of_lt (by omega)
      rw [h1]
      simp [he]

theorem mkMask_eq (b : Nat) : mkMask b = 2 ^ b - 1 := by
  induction b with
  | zero => rfl
  | succ n ih =>
    have hp : 1 ≤ 2 ^ n := Nat.one_le_two_pow
    simp only [mkMask, ih, Nat.pow_succ]
    omega

/-- Claim C2: the declared example struct — `int64`-underlying bitfields of
widths 7, 2, 2 in one 8-byte group, `int8`-underlying bitfields of widths
7, 2, 2, a 2-bit `int`-underlying bitfield, a plain 8-bit field, and
`int64`-underlying bitfields of widths 2, 62, 1 — is laid out with
`size = 40` and `alignment = 8`. -/
theorem C2_example_layout :
    (Struct cfg64 false exampleFields).2 = none ∧
    (Struct cfg64 false exampleFields).1.size = 40 ∧
    (Struct cfg64 false exampleFields).1.alignment = 8 := by
  decide

/-- Counterexample to claim C5 as stated: two consecutive bitfields whose
declared underlying types are distinct (`int8` versus `uint8`) but have
identical size and alignment do NOT get a fresh storage unit — the second
field keeps offset 0 inside the first field's byte, starts at bit 2, and
the struct stays 1 byte, because `recalc` compares only `size` and
`alignment` of the previous bitfield's type. -/
theorem C5_type_change_same_layout_continues :
    (Struct cfg64 false
        [("x", FieldType.bitfield int8T 2), ("y", FieldType.bitfield uint8T 2)]).2 = none ∧
    ((Struct cfg64 false
        [("x", FieldType.bitfield int8T 2), ("y", FieldType.bitfield uint8T 2)]).1.fields.map
      (fun nf => (nf.1, nf.2.offset, nf.2.bitStart))) = [("x", 0, 0), ("y", 0, 2)] ∧
    (Struct cfg64 false
        [("x", FieldType.bitfield int8T 2), ("y", FieldType.bitfield uint8T 2)]).1.size = 1 := by
  decide

/-- Counterexample to claim C3 as stated: adding a 9-bit bitfield over a
one-byte type to a consistent schema fails the width assert inside
`recalc`, yet the schema is not restored — the offending field has already
been inserted into the field table, and the size has been reset to the
partial value 4 (it was 8 before the call). -/
theorem C3_failed_addField_mutates :
    (defineProperty cfg64 schemaBeforeBadAdd "b" (FieldType.bitfield int8T 9)).2
        = some StructErr.bitfieldOverflow ∧
    ((defineProperty cfg64 schemaBeforeBadAdd "b" (FieldType.bitfield int8T 9)).1.fields.map
      Prod.fst) = ["a", "b"] ∧
    schemaBeforeBadAdd.size = 8 ∧
    (defineProperty cfg64 schemaBeforeBadAdd "b" (FieldType.bitfield int8T 9)).1.size = 4 ∧
    (defineProperty cfg64 schemaBeforeBadAdd "b" (FieldType.bitfield int8T 9)).1
        ≠ schemaBeforeBadAdd := by
  decide

/-- Counterexample to claim C8 as stated: on a packed schema, successfully
adding a one-byte field can decrease `size` — the struct alignment is the
minimum of the member alignments, so it drops from 8 to 1 and the trailing
padding disappears (size 8 before, 5 after). -/
theorem C8_packed_size_decreases :
    (defineProperty cfg64 (emptySchema true) "a" (FieldType.plain padded48T)).2 = none ∧
    packedSchemaA.size = 8 ∧
    (defineProperty cfg64 packedSchemaA "b" (FieldType.plain byte1T)).2 = none ∧
    (defineProperty cfg64 packedSchemaA "b" (FieldType.plain byte1T)).1.size = 5 := by
  decide

theorem addType_error_kinds (cfg : RefCfg) (packed : Bool) (st : RState) (fi : FieldInfo)
    (e : StructErr) (h : addType cfg packed st fi = Except.error e) :
    e = StructErr.unaligned := by
  simp only [addType] at h
  repeat' split at h
  all_goals
    first
      | (injection h with h'; exact h'.symm)
      | (injection h)

theorem layoutStep_error_kinds (cfg : RefCfg) (packed : Bool) (st : RState) (fi : FieldInfo)
    (e : StructErr) (h : layoutStep cfg packed st fi = Except.error e) :
    e = StructErr.bitfieldOverflow ∨ e = StructErr.unaligned := by
  by_cases hb : fi.type.bits = 0
  · simp [layoutStep, hb] at h
    exact Or.inr (addType_error_kinds cfg packed _ fi _ h)
  · by_cases hw : fi.type.bits ≤ fi.type.size * 8
    · simp [layoutStep, hb, hw] at h
    · simp [layoutStep, hb, hw] at h
      exact Or.inl h.symm

theorem recalcGo_error_kinds (cfg : RefCfg) (packed : Bool) :
    ∀ (l : List (String × FieldInfo)) (st : RState) (l' : List (String × FieldInfo))
      (st' : RState) (e : StructErr),
    recalcGo cfg packed st l = (l', st', some e) →
    e = StructErr.bitfieldOverflow ∨ e = StructErr.unaligned := by
  intro l
  induction l with
  | nil =>
    intro st l' st' e h
    simp [recalcGo] at h
  | cons x xs ih =>
    intro st l' st' e h
    rcases x with ⟨n, fi⟩
    unfold recalcGo at h
    rcases hls : layoutStep cfg packed st fi with e₁ | r
    · rw [hls] at h
      simp at h
      obtain ⟨-, -, he⟩ := h
      subst he
      exact layoutStep_error_kinds cfg packed st fi _ hls
    · rcases r with ⟨st₁, fi₁⟩
      rw [hls] at h
      simp only [] at h
      rcases hrec : recalcGo cfg packed st₁ xs with ⟨rest', st'', e'⟩
      rw [hrec] at h
      cases e' with
      | none => simp at h
      | some e₂ =>
        simp at h
        obtain ⟨-, -, he⟩ := h
        subst he
        exact ih st₁ rest' st'' _ hrec

theorem internalDefineProperty_error_keeps (s : Schema) (name : String) (t : FieldType)
    (s' : Schema) (e : StructErr) (h : internalDefineProperty s name t = (s', some e)) :
    s' = s := by
  unfold internalDefineProperty at h
  split_ifs at h <;> simp_all

theorem recalc_error_kinds (cfg : RefCfg) (s s' : Schema) (e : StructErr)
    (h : recalc cfg s = (s', some e)) :
    e = StructErr.bitfieldOverflow ∨ e = StructErr.unaligned := by
  unfold recalc at h
  rcases hgo : recalcGo cfg s.isPacked initRState s.fields with ⟨f', st, eo⟩
  rw [hgo] at h
  cases eo with
  | none => simp at h
  | some e₁ =>
    simp at h
    obtain ⟨-, he⟩ := h
    subst he
    exact recalcGo_error_kinds cfg s.isPacked s.fields initRState f' st _ hgo

/-- Claim C3, amended: a `defineProperty` call rejected by the validation
asserts — the frozen-schema check or the invalid-type check, both of which
run before any mutation — returns the schema exactly as it was. (The
counterexample shows that, by contrast, a failure inside the relayout does
mutate the schema.) -/
theorem C3_validation_failure_leaves_schema (cfg : RefCfg) (s : Schema) (name : String)
    (t : FieldType) (s' : Schema) (e : StructErr)
    (hcall : defineProperty cfg s name t = (s', some e))
    (he : e = StructErr.frozenSchema ∨ e = StructErr.invalidType) :
    s' = s := by
  unfold defineProperty at hcall
  rcases hint : internalDefineProperty s name t with ⟨s₁, e₁⟩
  rw [hint] at hcall
  cases e₁ with
  | none =>
    have := recalc_error_kinds cfg s₁ s' e hcall
    rcases this with h | h <;> rcases he with he | he <;> simp_all
  | some e₂ =>
    simp at hcall
    obtain ⟨h1, h2⟩ := hcall
    rw [h1] at hint
    exact internalDefineProperty_error_keeps s name t _ _ hint

/-- Witness for the amended C3: a frozen empty schema survives a rejected
`defineProperty` call unchanged. -/
theorem C3_validation_failure_leaves_schema_witness :
    (defineProperty cfg64 (structNew (emptySchema false)) "x" (FieldType.plain int8T)).1
      = structNew (emptySchema false) :=
  C3_validation_failure_leaves_schema cfg64 (structNew (emptySchema false)) "x"
    (FieldType.plain int8T)
    ((defineProperty cfg64 (structNew (emptySchema false)) "x" (FieldType.plain int8T)).1)
    StructErr.frozenSchema (by decide) (Or.inl rfl)

theorem bitfield_size (u : PrimType) (b : Nat) : (FieldType.bitfield u b).size = u.size := rfl

theorem bitfield_alignment (u : PrimType) (b : Nat) :
    (FieldType.bitfield u b).alignment = u.alignment := rfl

theorem bitfield_bits (u : PrimType) (b : Nat) : (FieldType.bitfield u b).bits = b := rfl

/-- Claim C5, amended: for a bitfield declared right after another bitfield
(`st.lastBT = some l`), a fresh storage unit is started exactly when the
underlying type's `(size, alignment)` pair differs from the previous
bitfield's or the unit overflows (`currBits + bits > 8 × size`): the field
then gets `bitStart = 0` and a unit of `size` bytes at the end of the
struct, aligned to the underlying alignment when the start was caused by a
type change (not packed). When size and alignment both match and the bits
fit, the field continues the current unit — same offset, consecutive
`bitStart`, no size growth — even if the declared underlying type is a
different type. -/
theorem C5_group_start (cfg : RefCfg) (packed : Bool) (st : RState) (l : FieldType)
    (u : PrimType) (b : Nat) (fi : FieldInfo)
    (hfi : fi.type = FieldType.bitfield u b)
    (hlast : st.lastBT = some l)
    (hb : b ≠ 0) (hle : b ≤ u.size * 8) :
    layoutStep cfg packed st fi = Except.ok (bitfieldLayout packed st fi) ∧
    ((l.size ≠ u.size ∨ l.alignment ≠ u.alignment ∨ 8 * u.size < st.currBits + b) →
      (bitfieldLayout packed st fi).2.bitStart = 0 ∧
      st.size ≤ (bitfieldLayout packed st fi).2.offset ∧
      (bitfieldLayout packed st fi).1.size = (bitfieldLayout packed st fi).2.offset + u.size) ∧
    ((l.size ≠ u.size ∨ l.alignment ≠ u.alignment) → packed = false → 1 ≤ u.alignment →
      u.alignment ∣ (bitfieldLayout packed st fi).2.offset) ∧
    (l.size = u.size → l.alignment = u.alignment → st.currBits + b ≤ 8 * u.size →
      (bitfieldLayout packed st fi).2.offset = st.lastOffset ∧
      (bitfieldLayout packed st fi).2.bitStart = st.currBits ∧
      (bitfieldLayout packed st fi).1.size = st.size) := by
  have hstep : layoutStep cfg packed st fi = Except.ok (bitfieldLayout packed st fi) := by
    simp only [layoutStep, hfi, bitfield_bits, bitfield_size]
    rw [if_neg hb, if_pos hb, if_pos hle]
  refine ⟨hstep, ?_, ?_, ?_⟩
  · intro hng
    by_cases hd1 : l.size = u.size <;> by_cases hd2 : l.alignment = u.alignment <;>
      by_cases hd3 : 8 * u.size < st.currBits + b <;>
      simp [bitfieldLayout, hfi, hlast, bitfield_size, bitfield_alignment, bitfield_bits,
        hd1, hd2, hd3] <;>
      omega
  · intro htd hpk ha
    have htdb : ((l.size != u.size) || (l.alignment != u.alignment)) = true := by
      rcases htd with h | h <;> simp [h]
    simp [bitfieldLayout, hfi, hlast, bitfield_size, bitfield_alignment, bitfield_bits,
      htdb, hpk]
    exact padTo_dvd st.size u.alignment ha
  · intro hd1 hd2 hd3
    simp [bitfieldLayout, hfi, hlast, bitfield_size, bitfield_alignment, bitfield_bits,
      hd1, hd2, hd3, Nat.not_lt.mpr hd3]

/-- A layout state mid-struct: an `int64` bitfield group holding 11 used
bits, struct size 8. -/
def c5State : RState :=
  { size := 8
    currBits := 11
    lastBT := some (FieldType.bitfield int64T 2)
    lastOffset := 0 }

/-- A freshly declared `int8`-underlying width-7 bitfield. -/
def c5Field : FieldInfo := FieldInfo.fresh (FieldType.bitfield int8T 7)

/-- Witness for the amended C5: after an `int64` bitfield group holding 11
bits at offset 0 of an 8-byte struct, an `int8`-underlying width-7
bitfield (type change) starts a fresh unit with `bitStart = 0`. -/
theorem C5_group_start_witness :
    layoutStep cfg64 false c5State c5Field = Except.ok (bitfieldLayout false c5State c5Field) ∧
    (bitfieldLayout false c5State c5Field).2.bitStart = 0 := by
  have h := C5_group_start cfg64 false c5State (FieldType.bitfield int64T 2) int8T 7 c5Field
    rfl rfl (by decide) (by decide)
  exact ⟨h.1, (h.2.1 (by decide)).1⟩

/-- Claim C9 evaluated at the failing input: `internalDefineProperty`
performs no reserved-name check, so adding fields named `ref` and
`ref.buffer` — the documented buffer accessors — succeeds instead of
failing. -/
theorem C9_reserved_name_accepted :
    (defineProperty cfg64 (emptySchema false) "ref" (FieldType.plain int8T)).2 = none ∧
    ((defineProperty cfg64 (emptySchema false) "ref" (FieldType.plain int8T)).1.fields.map
      Prod.fst) = ["ref"] ∧
    (defineProperty cfg64 (emptySchema false) "ref.buffer" (FieldType.plain int8T)).2 = none := by
  decide

/-- The union members of the worked sizing example: byte sizes 7, 3, 11
with alignments 1, 4, 8. -/
def unionExampleMembers : List (String × FieldType) :=
  [("u", FieldType.plain { size := 7, alignment := 1, indirection := 1, signed := false }),
   ("v", FieldType.plain { size := 3, alignment := 4, indirection := 1, signed := false }),
   ("w", FieldType.plain { size := 11, alignment := 8, indirection := 1, signed := false })]

/-- Well-formedness of a union member for the spec comparison: a positive
indirection level, and a positive alignment when it is a direct (non
pointer) type, so that the `type.alignment || pointerAlignment` fallback of
the implementation coincides with the spec's `type.alignment`. -/
def wfMember (nf : String × FieldType) : Prop :=
  1 ≤ nf.2.indirection ∧ (nf.2.indirection = 1 → 1 ≤ nf.2.alignment)

instance wfMember_decidable (nf : String × FieldType) : Decidable (wfMember nf) := by
  unfold wfMember
  infer_instance

theorem unionFold_eq (cfg : RefCfg) :
    ∀ (l : List (String × FieldType)) (a b : Nat), (∀ nf ∈ l, wfMember nf) →
    l.foldl
        (fun (acc : Nat × Nat) nf =>
          let size := unionMemberSize cfg nf.2
          let alignment := fieldAlign1 cfg nf.2
          (Nat.max acc.1 size, Nat.max acc.2 alignment))
        (a, b)
      = (Nat.max a ((l.map
            (fun nf => if nf.2.indirection > 1 then cfg.pointerSize else nf.2.size)).foldr
          Nat.max 0),
         Nat.max b ((l.map
            (fun nf => if nf.2.indirection > 1 then cfg.pointerAlignment else nf.2.alignment)).foldr
          Nat.max 0)) := by
  intro l
  induction l with
  | nil =>
    intro a b _
    simp
  | cons nf rest ih =>
    intro a b hwf
    have hnf := hwf nf (List.mem_cons_self nf rest)
    obtain ⟨hind, hal⟩ := hnf
    have hrest : ∀ x ∈ rest, wfMember x := fun x hx => hwf x (List.mem_cons_of_mem nf hx)
    have hsz : unionMemberSize cfg nf.2
        = (if nf.2.indirection > 1 then cfg.pointerSize else nf.2.size) := by
      unfold unionMemberSize
      rcases Nat.lt_or_ge 1 nf.2.indirection with hgt | hle
      · rw [if_neg (by omega), if_pos hgt]
      · have h1 : nf.2.indirection = 1 := by omega
        rw [if_pos h1, if_neg (by omega)]
    have hai : fieldAlign1 cfg nf.2
        = (if nf.2.indirection > 1 then cfg.pointerAlignment else nf.2.alignment) := by
      unfold fieldAlign1
      rcases Nat.lt_or_ge 1 nf.2.indirection with hgt | hle
      · rw [if_pos hgt, if_pos hgt]
      · have h1 : nf.2.indirection = 1 := by omega
        have ha1 : 1 ≤ nf.2.alignment := hal h1
        rw [if_neg (by omega), if_neg (by omega), if_neg (by omega)]
    simp only [List.foldl_cons, List.map_cons, List.foldr_cons]
    rw [ih (Nat.max a (unionMemberSize cfg nf.2)) (Nat.max b (fieldAlign1 cfg nf.2)) hrest]
    rw [hsz, hai]
    simp only [Prod.mk.injEq]
    exact ⟨Nat.max_assoc _ _ _, Nat.max_assoc _ _ _⟩

/-- Claim C6: the union layout engine gives the worked example — member
sizes 7, 3, 11 with alignments 1, 4, 8 — `size = 16` and `alignment = 8`;
and on every well-formed member list it computes exactly the spec formula:
alignment is the maximum member alignment (pointer alignment for
indirection above 1), size is the maximum member size (pointer size for
indirection above 1) padded up to a multiple of the alignment. Union
accessors use offset 0 for every member by construction. -/
theorem C6_union_sizing :
    unionRecalc cfg64 unionExampleMembers = (16, 8) ∧
    ∀ (cfg : RefCfg) (fields : List (String × FieldType)), (∀ nf ∈ fields, wfMember nf) →
      unionRecalc cfg fields = specUnionLayout cfg fields := by
  constructor
  · decide
  · intro cfg fields hwf
    unfold unionRecalc specUnionLayout
    rw [unionFold_eq cfg fields 0 0 hwf]
    simp

/-- Witness for C6: the general refinement applied to the concrete member
list. -/
theorem C6_union_sizing_witness :
    unionRecalc cfg64 unionExampleMembers = specUnionLayout cfg64 unionExampleMembers :=
  C6_union_sizing.2 cfg64 unionExampleMembers (by decide)

/-- Claim C1 evaluated at the failing input: a width-2 signed bitfield at
bit 0 whose stored bits are `11` (the field was last set to `-1`) is then
set to `1`; because the setter ORs without clearing
(`val = val | ((value & mask) << bitStart)`), the stored bits stay `11`
and the getter returns `-1`, not the written `1`. -/
theorem C1_set_does_not_clear :
    bfGet int8T 2 0 (bfSet int8T 2 0 (bfSet int8T 2 0 0 (-1)) 1) = -1 := by
  decide

/-!
Bit-level lemmas for the accessor proofs: the two's-complement reading of
a bit pattern, BigInt OR on such readings, and extraction windows.
-/

theorem asIntN_emod (b : Nat) (x : Int) : asIntN b x % 2 ^ b = x % 2 ^ b := by
  simp only [asIntN]
  split
  · exact Int.emod_emod_of_dvd x dvd_rfl
  · rw [Int.sub_emod, Int.emod_self, Int.sub_zero, Int.emod_emod_of_dvd _ dvd_rfl,
      Int.emod_emod_of_dvd _ dvd_rfl]

theorem refGetUnit_form (t : PrimType) (p : Nat) (hp : p < 2 ^ (8 * t.size)) :
    refGetUnit t p = (p : Int) ∨ refGetUnit t p = (p : Int) - 2 ^ (8 * t.size) := by
  unfold refGetUnit asIntN
  split
  · have hcast : ((p : Int)) < 2 ^ (8 * t.size) := by
      rw [show ((2 : Int) ^ (8 * t.size)) = ((2 ^ (8 * t.size) : Nat) : Int) by push_cast; ring]
      exact_mod_cast hp
    have h0 : (p : Int) % 2 ^ (8 * t.size) = p := Int.emod_eq_of_lt (Int.ofNat_nonneg p) hcast
    simp only [h0]
    split
    · exact Or.inl rfl
    · exact Or.inr rfl
  · exact Or.inl rfl

theorem compl_testBit (n : Nat) : ∀ (x i : Nat), x < 2 ^ n →
    (2 ^ n - 1 - x).testBit i = (decide (i < n) && ! x.testBit i) := by
  induction n with
  | zero =>
    intro x i hx
    have hx0 : x = 0 := by omega
    subst hx0
    simp [Nat.zero_testBit]
  | succ m ih =>
    intro x i hx
    have h2 : 2 ^ (m + 1) = 2 * 2 ^ m := by rw [Nat.pow_succ]; ring
    have hB : 1 ≤ 2 ^ m := Nat.one_le_two_pow
    rw [h2] at hx
    cases i with
    | zero =>
      rw [Nat.testBit_zero, Nat.testBit_zero]
      rcases Nat.mod_two_eq_zero_or_one x with hpar | hpar
      · have hm : (2 ^ (m + 1) - 1 - x) % 2 = 1 := by rw [h2]; omega
        simp [hm, hpar]
      · have hm : (2 ^ (m + 1) - 1 - x) % 2 = 0 := by rw [h2]; omega
        simp [hm, hpar]
    | succ j =>
      rw [Nat.testBit_succ, Nat.testBit_succ]
      have hdiv : (2 ^ (m + 1) - 1 - x) / 2 = 2 ^ m - 1 - x / 2 := by rw [h2]; omega
      have hx2 : x / 2 < 2 ^ m := by omega
      rw [hdiv, ih (x / 2) j hx2]
      simp [Nat.succ_lt_succ_iff]

theorem lor_lt_two_pow (n p y : Nat) (hp : p < 2 ^ n) (hy : y < 2 ^ n) : p ||| y < 2 ^ n := by
  apply Nat.lt_pow_two_of_testBit
  intro i hi
  have h2 : 2 ^ n ≤ 2 ^ i := Nat.pow_le_pow_right (by omega) hi
  rw [Nat.testBit_lor, Nat.testBit_lt_two_pow (by omega), Nat.testBit_lt_two_pow (by omega)]
  rfl

theorem ldiff_compl (n p y : Nat) (hp : p < 2 ^ n) (hy : y < 2 ^ n) :
    Nat.ldiff (2 ^ n - 1 - p) y = 2 ^ n - 1 - (p ||| y) := by
  apply Nat.eq_of_testBit_eq
  intro i
  rw [Nat.testBit_ldiff, compl_testBit n p i hp,
    compl_testBit n (p ||| y) i (lor_lt_two_pow n p y hp hy), Nat.testBit_lor,
    Bool.not_or, ← Bool.and_assoc]

theorem cast_sub_two_pow (n p : Nat) (hp : p < 2 ^ n) :
    (p : Int) - 2 ^ n = Int.negSucc (2 ^ n - 1 - p) := by
  rw [Int.negSucc_eq]
  have hc : ((2 ^ n : Nat) : Int) = (2 : Int) ^ n := by push_cast; ring
  rw [← hc]
  omega

theorem lor_pattern (n p y : Nat) (x : Int) (hp : p < 2 ^ n) (hy : y < 2 ^ n)
    (hx : x = (p : Int) ∨ x = (p : Int) - 2 ^ n) :
    Int.lor x (y : Int) % 2 ^ n = ((p ||| y : Nat) : Int) := by
  have hlt := lor_lt_two_pow n p y hp hy
  have hltI : ((p ||| y : Nat) : Int) < 2 ^ n := by
    rw [show ((2 : Int) ^ n) = ((2 ^ n : Nat) : Int) by push_cast; ring]
    exact_mod_cast hlt
  rcases hx with rfl | rfl
  · have hcomp : Int.lor (p : Int) (y : Int) = ((p ||| y : Nat) : Int) := rfl
    rw [hcomp]
    exact Int.emod_eq_of_lt (Int.ofNat_nonneg _) hltI
  · rw [cast_sub_two_pow n p hp]
    have hcomp : Int.lor (Int.negSucc (2 ^ n - 1 - p)) (y : Int)
        = Int.negSucc (Nat.ldiff (2 ^ n - 1 - p) y) := rfl
    rw [hcomp, ldiff_compl n p y hp hy, ← cast_sub_two_pow n (p ||| y) hlt,
      Int.sub_emod, Int.emod_self, Int.sub_zero, Int.emod_emod_of_dvd _ dvd_rfl]
    exact Int.emod_eq_of_lt (Int.ofNat_nonneg _) hltI

theorem bfSet_pattern (t : PrimType) (bits bitStart : Nat) (p : Nat) (v : Int)
    (hp : p < 2 ^ (8 * t.size)) (hbs : bitStart + bits ≤ 8 * t.size) :
    bfSet t bits bitStart p v
      = p ||| ((v % (2 : Int) ^ bits).toNat <<< bitStart) := by
  have hb2 : (0 : Int) < 2 ^ bits := by positivity
  have hv0 : 0 ≤ v % (2 : Int) ^ bits := Int.emod_nonneg v (by omega)
  have hvlt : v % (2 : Int) ^ bits < 2 ^ bits := Int.emod_lt_of_pos v hb2
  have htn : (v % (2 : Int) ^ bits).toNat < 2 ^ bits := by
    rw [Int.toNat_lt hv0]
    rw [show ((2 ^ bits : Nat) : Int) = (2 : Int) ^ bits by push_cast; ring]
    exact hvlt
  have hpow : 0 < 2 ^ bitStart := Nat.pos_pow_of_pos bitStart (by omega)
  have hY : (v % (2 : Int) ^ bits).toNat * 2 ^ bitStart < 2 ^ (8 * t.size) := by
    calc (v % (2 : Int) ^ bits).toNat * 2 ^ bitStart
        < 2 ^ bits * 2 ^ bitStart := mul_lt_mul_of_pos_right htn hpow
      _ = 2 ^ (bits + bitStart) := by rw [Nat.pow_add]
      _ ≤ 2 ^ (8 * t.size) := Nat.pow_le_pow_right (by omega) (by omega)
  have hYcast : (((v % (2 : Int) ^ bits).toNat * 2 ^ bitStart : Nat) : Int)
      = v % (2 : Int) ^ bits * (2 : Int) ^ bitStart := by
    push_cast [Int.toNat_of_nonneg hv0]
    ring
  simp only [bfSet, refSetUnit]
  have hmod : (if t.signed then
        asIntN (8 * t.size) (Int.lor (refGetUnit t p) (v % (2 : Int) ^ bits * (2 : Int) ^ bitStart))
      else Int.lor (refGetUnit t p) (v % (2 : Int) ^ bits * (2 : Int) ^ bitStart)) % 2 ^ (8 * t.size)
      = Int.lor (refGetUnit t p) (v % (2 : Int) ^ bits * (2 : Int) ^ bitStart)
          % 2 ^ (8 * t.size) := by
    split
    · exact asIntN_emod (8 * t.size) _
    · rfl
  rw [hmod, ← hYcast,
    lor_pattern (8 * t.size) p ((v % (2 : Int) ^ bits).toNat * 2 ^ bitStart) (refGetUnit t p) hp hY
      (refGetUnit_form t p hp),
    Int.toNat_natCast, Nat.shiftLeft_eq]

theorem ediv_window (n s b : Nat) (x : Int) (p : Nat) (hsb : s + b ≤ n)
    (hx : x = (p : Int) ∨ x = (p : Int) - 2 ^ n) :
    x / (2 : Int) ^ s % (2 : Int) ^ b = (((p >>> s) % 2 ^ b : Nat) : Int) := by
  have hc2 : ∀ m : Nat, ((2 ^ m : Nat) : Int) = (2 : Int) ^ m := by
    intro m
    push_cast
    ring
  have hdiv : (p : Int) / (2 : Int) ^ s = ((p / 2 ^ s : Nat) : Int) := by
    rw [Int.ofNat_ediv, hc2]
  rcases hx with rfl | rfl
  · rw [hdiv, ← hc2 b, ← Int.ofNat_emod, Nat.shiftRight_eq_div_pow]
  · have hsplit : (p : Int) - 2 ^ n = (p : Int) + (-(2 ^ (n - s) : Int)) * 2 ^ s := by
      have : ((2 : Int) ^ (n - s)) * 2 ^ s = 2 ^ n := by
        rw [← pow_add]
        congr 1
        omega
      rw [neg_mul, this]
      ring
    rw [hsplit, Int.add_mul_ediv_right _ _ (by positivity), hdiv]
    have hsub : ((p / 2 ^ s : Nat) : Int) + -(2 ^ (n - s)) =
        ((p / 2 ^ s : Nat) : Int) - (2 ^ (n - s - b) : Int) * 2 ^ b := by
      have : ((2 : Int) ^ (n - s - b)) * 2 ^ b = 2 ^ (n - s) := by
        rw [← pow_add]
        congr 1
        omega
      rw [this]
      ring
    rw [hsub, Int.sub_emod, Int.mul_emod_left, Int.sub_zero,
      Int.emod_emod_of_dvd _ dvd_rfl, ← hc2 b, ← Int.ofNat_emod, Nat.shiftRight_eq_div_pow]

theorem bfGet_pattern (t : PrimType) (bits bitStart : Nat) (p : Nat)
    (hp : p < 2 ^ (8 * t.size)) (hbs : bitStart + bits ≤ 8 * t.size) :
    bfGet t bits bitStart p
      = (if t.signed then asIntN bits (((p >>> bitStart) % 2 ^ bits : Nat) : Int)
         else (((p >>> bitStart) % 2 ^ bits : Nat) : Int)) := by
  simp only [bfGet]
  rw [ediv_window (8 * t.size) bitStart bits (refGetUnit t p) p hbs (refGetUnit_form t p hp)]

/-- Claim C7: writing any value to bitfield A (window of `bA` bits starting
at bit `sA`) of a shared storage unit leaves the value read from a sibling
bitfield B (window of `bB` bits at `sB`, disjoint from A's window, both
within the unit) unchanged. Same-group distinct bitfields produced by the
layout engine have exactly such disjoint in-unit windows over one shared
offset. -/
theorem C7_sibling_isolation (t : PrimType) (bA sA bB sB : Nat) (p : Nat) (v : Int)
    (hp : p < 2 ^ (8 * t.size))
    (hA : sA + bA ≤ 8 * t.size) (hB : sB + bB ≤ 8 * t.size)
    (hdisj : sA + bA ≤ sB ∨ sB + bB ≤ sA) :
    bfGet t bB sB (bfSet t bA sA p v) = bfGet t bB sB p := by
  have hb2 : (0 : Int) < 2 ^ bA := by positivity
  have hv0 : 0 ≤ v % (2 : Int) ^ bA := Int.emod_nonneg v (by omega)
  have htn : (v % (2 : Int) ^ bA).toNat < 2 ^ bA := by
    rw [Int.toNat_lt hv0]
    rw [show ((2 ^ bA : Nat) : Int) = (2 : Int) ^ bA by push_cast; ring]
    exact Int.emod_lt_of_pos v hb2
  have hset := bfSet_pattern t bA sA p v hp hA
  have hpow : 0 < 2 ^ sA := Nat.pos_pow_of_pos sA (by omega)
  have hY : ((v % (2 : Int) ^ bA).toNat <<< sA) < 2 ^ (8 * t.size) := by
    rw [Nat.shiftLeft_eq]
    calc (v % (2 : Int) ^ bA).toNat * 2 ^ sA
        < 2 ^ bA * 2 ^ sA := mul_lt_mul_of_pos_right htn hpow
      _ = 2 ^ (bA + sA) := by rw [Nat.pow_add]
      _ ≤ 2 ^ (8 * t.size) := Nat.pow_le_pow_right (by omega) (by omega)
  have hp' : (p ||| ((v % (2 : Int) ^ bA).toNat <<< sA)) < 2 ^ (8 * t.size) :=
    lor_lt_two_pow _ _ _ hp hY
  rw [hset, bfGet_pattern t bB sB _ hp' hB, bfGet_pattern t bB sB p hp hB]
  have hwin : ((p ||| ((v % (2 : Int) ^ bA).toNat <<< sA)) >>> sB) % 2 ^ bB
      = (p >>> sB) % 2 ^ bB := by
    apply Nat.eq_of_testBit_eq
    intro i
    rw [Nat.testBit_mod_two_pow, Nat.testBit_mod_two_pow, Nat.testBit_shiftRight,
      Nat.testBit_shiftRight, Nat.testBit_lor]
    rcases Nat.lt_or_ge i bB with hib | hib
    · have hYbit : ((v % (2 : Int) ^ bA).toNat <<< sA).testBit (sB + i) = false := by
        rw [Nat.testBit_shiftLeft]
        rcases hdisj with hd | hd
        · have : ¬ (sB + i ≥ sA) ∨ (v % (2 : Int) ^ bA).toNat.testBit (sB + i - sA) = false := by
            right
            apply Nat.testBit_lt_two_pow
            calc (v % (2 : Int) ^ bA).toNat < 2 ^ bA := htn
              _ ≤ 2 ^ (sB + i - sA) := Nat.pow_le_pow_right (by omega) (by omega)
          rcases this with h | h
          · rw [decide_eq_false h, Bool.false_and]
          · rw [h, Bool.and_false]
        · rw [decide_eq_false (by omega), Bool.false_and]
      rw [hYbit, Bool.or_false]
    · rw [decide_eq_false (by omega), Bool.false_and, Bool.false_and]
  rw [hwin]

/-- Witness for C7 at a concrete input: two width-2 fields of one signed
byte at bits 0-1 and 2-3; pattern 12 holds B = -1; writing 1 to A leaves
B reading -1. -/
theorem C7_sibling_isolation_witness :
    bfGet int8T 2 2 (bfSet int8T 2 0 12 1) = bfGet int8T 2 2 12 :=
  C7_sibling_isolation int8T 2 0 2 2 12 1 (by decide) (by decide) (by decide)
    (Or.inl (by decide))

/-- Claim C10: the `Bitfield` constructor defaults a falsy `bits` argument
to width 1 and rejects any pointer-indirected underlying type. -/
theorem C10_bitfield_defaults (t : PrimType) (b : Nat) :
    (t.indirection = 1 → Bitfield t 0 = some (FieldType.bitfield t 1)) ∧
    (t.indirection ≠ 1 → Bitfield t b = none) := by
  refine ⟨fun h => ?_, fun h => ?_⟩ <;> simp [Bitfield, h]

/-- Witness for C10 at concrete inputs: `int8` with omitted width, and a
pointer type of indirection 2. -/
theorem C10_bitfield_defaults_witness :
    Bitfield int8T 0 = some (FieldType.bitfield int8T 1) ∧
    Bitfield { size := 8, alignment := 8, indirection := 2, signed := false } 5 = none :=
  ⟨(C10_bitfield_defaults int8T 0).1 rfl,
   (C10_bitfield_defaults { size := 8, alignment := 8, indirection := 2, signed := false } 5).2
     (by decide)⟩

/-!
Lemmas for the size-monotonicity analysis: the raw size never shrinks
along the second `recalc` loop, the loop is deterministic on a prefix, and
the pass-1 alignment of an extended field list is the max with the new
field's natural alignment.
-/

theorem padTo_step_le (r z g a : Nat) (hg : 1 ≤ g) (hz : 1 ≤ z) (ha : a < g) :
    padTo r a ≤ padTo (padTo r g + z) g := by
  have e1 : padTo (padTo r g + z) g = padTo r g + padTo z g :=
    padTo_add_of_dvd (padTo r g) z g (padTo_dvd r g hg)
  have e2 : g ≤ padTo z g := padTo_pos_ge z g hz hg
  have e3 : r ≤ padTo r g := le_padTo r g
  have e4 : padTo r a ≤ r + a := padTo_le_add r a
  omega

theorem addType_ok_unpacked (cfg : RefCfg) (st : RState) (fi : FieldInfo) (st' : RState)
    (fi' : FieldInfo) (h : addType cfg false st fi = Except.ok (st', fi')) :
    st'.size
      = padTo st.size (if fi.type.indirection = 1 then fi.type.alignment else cfg.pointerAlignment)
        + (if fi.type.indirection = 1 then fi.type.size else cfg.pointerSize) ∧
    st'.currBits = st.currBits ∧ st'.lastBT = st.lastBT := by
  by_cases hc : (st.size
      + ((if fi.type.indirection = 1 then fi.type.alignment else cfg.pointerAlignment)
        - st.size % (if fi.type.indirection = 1 then fi.type.alignment else cfg.pointerAlignment)))
      % (if fi.type.indirection = 1 then fi.type.alignment else cfg.pointerAlignment) = 0
  · simp [addType, hc] at h
    obtain ⟨h1, h2⟩ := h
    rw [← h1]
    simp [padTo]
  · simp [addType, hc] at h

theorem addType_size_mono (cfg : RefCfg) (packed : Bool) (st : RState) (fi : FieldInfo)
    (st' : RState) (fi' : FieldInfo) (h : addType cfg packed st fi = Except.ok (st', fi')) :
    st.size ≤ st'.size := by
  cases packed with
  | true =>
    simp [addType] at h
    obtain ⟨h1, h2⟩ := h
    rw [← h1]
    simp
  | false =>
    by_cases hc : (st.size
        + ((if fi.type.indirection = 1 then fi.type.alignment else cfg.pointerAlignment)
          - st.size
            % (if fi.type.indirection = 1 then fi.type.alignment else cfg.pointerAlignment)))
        % (if fi.type.indirection = 1 then fi.type.alignment else cfg.pointerAlignment) = 0
    · simp [addType, hc] at h
      obtain ⟨h1, h2⟩ := h
      rw [← h1]
      simp
      omega
    · simp [addType, hc] at h

theorem bitfieldLayout_size_mono (packed : Bool) (st : RState) (fi : FieldInfo) :
    st.size ≤ (bitfieldLayout packed st fi).1.size := by
  simp only [bitfieldLayout]
  repeat' split
  all_goals omega

theorem bitfieldLayout_lastBT (packed : Bool) (st : RState) (fi : FieldInfo) :
    (bitfieldLayout packed st fi).1.lastBT = some fi.type := by
  simp [bitfieldLayout]

theorem layoutStep_size_mono (cfg : RefCfg) (packed : Bool) (st : RState) (fi : FieldInfo)
    (st' : RState) (fi' : FieldInfo) (h : layoutStep cfg packed st fi = Except.ok (st', fi')) :
    st.size ≤ st'.size := by
  by_cases hb : fi.type.bits = 0
  · simp [layoutStep, hb] at h
    have h2 := addType_size_mono cfg packed _ fi st' fi' h
    exact h2
  · by_cases hw : fi.type.bits ≤ fi.type.size * 8
    · simp [layoutStep, hb, hw] at h
      have h2 := bitfieldLayout_size_mono packed st fi
      rw [h] at h2
      exact h2
    · simp [layoutStep, hb, hw] at h

theorem addType_lastBT (cfg : RefCfg) (packed : Bool) (st : RState) (fi : FieldInfo)
    (st' : RState) (fi' : FieldInfo) (h : addType cfg packed st fi = Except.ok (st', fi')) :
    st'.lastBT = st.lastBT := by
  cases packed with
  | true =>
    simp [addType] at h
    obtain ⟨h1, h2⟩ := h
    rw [← h1]
  | false =>
    by_cases hc : (st.size
        + ((if fi.type.indirection = 1 then fi.type.alignment else cfg.pointerAlignment)
          - st.size
            % (if fi.type.indirection = 1 then fi.type.alignment else cfg.pointerAlignment)))
        % (if fi.type.indirection = 1 then fi.type.alignment else cfg.pointerAlignment) = 0
    · simp [addType, hc] at h
      obtain ⟨h1, h2⟩ := h
      rw [← h1]
    · simp [addType, hc] at h

theorem layoutStep_lastBT (cfg : RefCfg) (packed : Bool) (st : RState) (fi : FieldInfo)
    (st' : RState) (fi' : FieldInfo) (h : layoutStep cfg packed st fi = Except.ok (st', fi')) :
    st'.lastBT = none ∨ (st'.lastBT = some fi.type ∧ fi.type.bits ≠ 0) := by
  by_cases hb : fi.type.bits = 0
  · simp [layoutStep, hb] at h
    have h2 := addType_lastBT cfg packed _ fi st' fi' h
    exact Or.inl h2
  · by_cases hw : fi.type.bits ≤ fi.type.size * 8
    · simp [layoutStep, hb, hw] at h
      right
      refine ⟨?_, hb⟩
      have h3 := bitfieldLayout_lastBT packed st fi
      rw [h] at h3
      exact h3
    · simp [layoutStep, hb, hw] at h

theorem recalcGo_concat (cfg : RefCfg) (packed : Bool) (y : String × FieldInfo) :
    ∀ (xs : List (String × FieldInfo)) (st : RState) (xs' : List (String × FieldInfo))
      (st' : RState), recalcGo cfg packed st xs = (xs', st', none) →
    recalcGo cfg packed st (xs ++ [y])
      = match layoutStep cfg packed st' y.2 with
        | Except.error e => (xs' ++ [y], st', some e)
        | Except.ok (st₂, fi₂) => (xs' ++ [(y.1, fi₂)], st₂, none) := by
  intro xs
  induction xs with
  | nil =>
    intro st xs' st' h
    simp [recalcGo] at h
    obtain ⟨h1, h2⟩ := h
    subst h1
    subst h2
    rcases y with ⟨m, fy⟩
    rcases hls : layoutStep cfg packed st fy with e | r
    · simp [recalcGo, hls]
    · rcases r with ⟨st₂, fi₂⟩
      simp [recalcGo, hls]
  | cons x xs ih =>
    intro st xs' st' h
    rcases x with ⟨n, fi⟩
    unfold recalcGo at h
    rcases hls : layoutStep cfg packed st fi with e₁ | r
    · rw [hls] at h
      simp at h
    · rcases r with ⟨st₁, fi₁⟩
      rw [hls] at h
      simp only [] at h
      rcases hrec : recalcGo cfg packed st₁ xs with ⟨rest', st'', e'⟩
      rw [hrec] at h
      cases e' with
      | some e₂ => simp at h
      | none =>
        simp at h
        obtain ⟨h1, h2⟩ := h
        subst h1
        subst h2
        show recalcGo cfg packed st ((n, fi) :: (xs ++ [y])) = _
        unfold recalcGo
        rw [hls]
        simp only []
        rw [ih st₁ rest' st'' hrec]
        rcases hls2 : layoutStep cfg packed st'' y.2 with e | r2
        · simp [hls2]
        · rcases r2 with ⟨st₂, fi₂⟩
          simp [hls2]

theorem recalcGo_lastBT (cfg : RefCfg) (packed : Bool) :
    ∀ (l : List (String × FieldInfo)) (st : RState) (l' : List (String × FieldInfo))
      (st' : RState) (e : Option StructErr),
    recalcGo cfg packed st l = (l', st', e) →
    st'.lastBT = st.lastBT ∨ st'.lastBT = none ∨
      ∃ nf ∈ l, st'.lastBT = some nf.2.type ∧ nf.2.type.bits ≠ 0 := by
  intro l
  induction l with
  | nil =>
    intro st l' st' e h
    simp [recalcGo] at h
    obtain ⟨-, h2, -⟩ := h
    subst h2
    exact Or.inl rfl
  | cons x xs ih =>
    intro st l' st' e h
    rcases x with ⟨n, fi⟩
    unfold recalcGo at h
    rcases hls : layoutStep cfg packed st fi with e₁ | r
    · rw [hls] at h
      simp at h
      obtain ⟨-, h2, -⟩ := h
      subst h2
      exact Or.inl rfl
    · rcases r with ⟨st₁, fi₁⟩
      rw [hls] at h
      simp only [] at h
      rcases hrec : recalcGo cfg packed st₁ xs with ⟨rest', st'', e'⟩
      rw [hrec] at h
      simp at h
      obtain ⟨-, h2, -⟩ := h
      subst h2
      have hih := ih st₁ rest' st'' e' hrec
      rcases hih with h3 | h3 | ⟨nf, hnf, h4, h5⟩
      · rcases layoutStep_lastBT cfg packed st fi st₁ fi₁ hls with h5 | ⟨h5, h6⟩
        · right; left
          rw [h3, h5]
        · right; right
          exact ⟨(n, fi), List.mem_cons_self _ _, by rw [h3, h5], h6⟩
      · right; left
        exact h3
      · right; right
        exact ⟨nf, List.mem_cons_of_mem _ hnf, h4, h5⟩

theorem foldl_max_init_le (f : (String × FieldInfo) → Nat) :
    ∀ (l : List (String × FieldInfo)) (init : Nat),
    init ≤ l.foldl (fun acc x => Nat.max acc (f x)) init := by
  intro l
  induction l with
  | nil =>
    intro init
    simp
  | cons x xs ih =>
    intro init
    simp only [List.foldl_cons]
    exact le_trans (Nat.le_max_left init (f x)) (ih (Nat.max init (f x)))

theorem foldl_max_mem_le (f : (String × FieldInfo) → Nat) :
    ∀ (l : List (String × FieldInfo)) (init : Nat) (nf : String × FieldInfo), nf ∈ l →
    f nf ≤ l.foldl (fun acc x => Nat.max acc (f x)) init := by
  intro l
  induction l with
  | nil =>
    intro init nf h
    simp at h
  | cons x xs ih =>
    intro init nf h
    simp only [List.foldl_cons]
    rcases List.mem_cons.mp h with rfl | hm
    · exact le_trans (Nat.le_max_right init (f nf)) (foldl_max_init_le f xs _)
    · exact ih _ nf hm

theorem computeAlignment_eq_foldl (cfg : RefCfg) (l : List (String × FieldInfo)) :
    computeAlignment cfg false l
      = l.foldl (fun acc x => Nat.max acc (fieldAlign1 cfg x.2.type)) 0 := rfl

theorem computeAlignment_concat (cfg : RefCfg) (l : List (String × FieldInfo))
    (y : String × FieldInfo) :
    computeAlignment cfg false (l ++ [y])
      = Nat.max (computeAlignment cfg false l) (fieldAlign1 cfg y.2.type) := by
  rw [computeAlignment_eq_foldl, computeAlignment_eq_foldl, List.foldl_append]
  simp

theorem fieldAlign1_le_computeAlignment (cfg : RefCfg) (l : List (String × FieldInfo))
    (nf : String × FieldInfo) (h : nf ∈ l) :
    fieldAlign1 cfg nf.2.type ≤ computeAlignment cfg false l := by
  rw [computeAlignment_eq_foldl]
  exact foldl_max_mem_le (fun x => fieldAlign1 cfg x.2.type) l 0 nf h

theorem bitfieldLayout_typeDiff_size (st : RState) (fi : FieldInfo) (u : PrimType) (b : Nat)
    (hfi : fi.type = FieldType.bitfield u b)
    (htd : (match st.lastBT with
            | none => true
            | some l => (l.size != u.size) || (l.alignment != u.alignment)) = true) :
    (bitfieldLayout false st fi).1.size = padTo st.size u.alignment + u.size := by
  simp only [bitfieldLayout, hfi, bitfield_size, bitfield_alignment, bitfield_bits]
  rw [htd]
  simp [padTo]

theorem fresh_type (T : FieldType) : (FieldInfo.fresh T).type = T := rfl

/-- Claim C8, amended: on a non-packed schema in a consistent state (its
own relayout is a fixpoint), a successful `defineProperty` of a fresh name
with a well-formed type never decreases `size`. (The packed case fails —
see the counterexample — and a failed call can also shrink the recorded
size, see C3.) -/
theorem C8_addField_size_monotone
    (cfg : RefCfg) (s : Schema) (name : String) (t : FieldType) (s₁ : Schema)
    (hps : 1 ≤ cfg.pointerSize) (hpa : 1 ≤ cfg.pointerAlignment)
    (hpk : s.isPacked = false)
    (hfro : s.instanceCreated = false)
    (hfresh : ∀ nf ∈ s.fields, nf.1 ≠ name)
    (hind : 1 ≤ t.indirection)
    (hwf : t.indirection = 1 → 1 ≤ t.alignment ∧ 1 ≤ t.size)
    (hcons : recalc cfg s = (s, none))
    (hcall : defineProperty cfg s name t = (s₁, none)) :
    s.size ≤ s₁.size := by
  -- reduce the call to a relayout of the appended field list
  have hvalid : t.indirection > 1 ∨ t.size > 0 := by
    rcases Nat.lt_or_ge 1 t.indirection with h | h
    · exact Or.inl h
    · have h1 : t.indirection = 1 := by omega
      exact Or.inr (by have := (hwf h1).2; omega)
  have hany : s.fields.any (fun nf => nf.1 = name) = false := by
    rw [List.any_eq_false]
    intro nf hnf
    simp [hfresh nf hnf]
  have hup : upsert s.fields name (FieldInfo.fresh t) = s.fields ++ [(name, FieldInfo.fresh t)] := by
    unfold upsert
    rw [hany]
    simp
  have hcall2 : recalc cfg
      { fields := s.fields ++ [(name, FieldInfo.fresh t)]
        size := s.size
        alignment := s.alignment
        isPacked := s.isPacked
        instanceCreated := false }
      = (s₁, none) := by
    simp only [defineProperty, internalDefineProperty, hfro, hvalid, hup] at hcall
    simp at hcall
    exact hcall
  -- unpack the consistency of the starting schema
  simp only [recalc] at hcons
  rcases hgo : recalcGo cfg s.isPacked initRState s.fields with ⟨f₀, st₀, e₀⟩
  rw [hgo] at hcons
  rw [hpk] at hgo
  cases e₀ with
  | some e => simp at hcons
  | none =>
    have hfst := congrArg Prod.fst hcons
    simp only [] at hfst
    have hsz := congrArg Schema.size hfst
    simp only [hpk] at hsz
    -- hsz : addFinalPadding st₀.size (computeAlignment cfg false s.fields) = s.size
    -- unpack the relayout of the extended schema
    have hconcat := recalcGo_concat cfg false (name, FieldInfo.fresh t) s.fields initRState f₀
      st₀ hgo
    simp only [recalc, hpk] at hcall2
    rw [hconcat] at hcall2
    simp only [] at hcall2
    rcases hstep : layoutStep cfg false st₀ (FieldInfo.fresh t) with e | r
    · rw [hstep] at hcall2
      simp at hcall2
    · rcases r with ⟨st₂, fi₂⟩
      rw [hstep] at hcall2
      simp only [] at hcall2
      have hfst2 := congrArg Prod.fst hcall2
      simp only [] at hfst2
      have hsz2 := congrArg Schema.size (hfst2.symm)
      -- hsz2 : s₁.size = addFinalPadding st₂.size (computeAlignment cfg false (s.fields ++ _))
      rw [computeAlignment_concat] at hsz2
      set af := fieldAlign1 cfg ((name, FieldInfo.fresh t)).2.type with haf
      set A := computeAlignment cfg false s.fields with hA
      rw [← hsz, hsz2, addFinalPadding_eq_padTo, addFinalPadding_eq_padTo]
      show padTo st₀.size A ≤ padTo st₂.size (Nat.max A af)
      rcases le_or_lt af A with hle | hlt
      · have hmax : Nat.max A af = A := Nat.max_eq_left hle
        rw [hmax]
        exact padTo_mono st₀.size st₂.size A
          (layoutStep_size_mono cfg false st₀ (FieldInfo.fresh t) st₂ fi₂ hstep)
      · have hmax : Nat.max A af = af := Nat.max_eq_right (Nat.le_of_lt hlt)
        rw [hmax]
        -- here the new field raised the alignment; analyse its layout step
        by_cases hb : t.bits = 0
        · -- plain placement through addType
          have hstep' : addType cfg false { st₀ with currBits := 0, lastBT := none }
              (FieldInfo.fresh t) = Except.ok (st₂, fi₂) := by
            simp only [layoutStep, fresh_type, hb, ite_true, ne_eq, not_true_eq_false,
              if_false, ite_false] at hstep
            exact hstep
          have hfacts := addType_ok_unpacked cfg _ (FieldInfo.fresh t) st₂ fi₂ hstep'
          have hsize2 : st₂.size
              = padTo st₀.size (if t.indirection = 1 then t.alignment else cfg.pointerAlignment)
                + (if t.indirection = 1 then t.size else cfg.pointerSize) := by
            have := hfacts.1
            simpa [fresh_type] using this
          by_cases hi : t.indirection = 1
          · have hga : af = t.alignment := by
              have hta : ¬ t.alignment = 0 := by have := (hwf hi).1; omega
              rw [haf]
              simp [fieldAlign1, fresh_type, hi, hta]
            rw [hsize2]
            rw [if_pos hi, if_pos hi]
            rw [hga] at hlt ⊢
            exact padTo_step_le st₀.size t.size t.alignment A (hwf hi).1 (hwf hi).2 hlt
          · have higt : 1 < t.indirection := by omega
            have hga : af = cfg.pointerAlignment := by
              rw [haf]
              simp [fieldAlign1, fresh_type, higt]
            rw [hsize2]
            rw [if_neg hi, if_neg hi]
            rw [hga] at hlt ⊢
            exact padTo_step_le st₀.size cfg.pointerSize cfg.pointerAlignment A hpa hps hlt
        · -- bitfield placement
          cases t with
          | plain u =>
            simp [FieldType.bits] at hb
          | bitfield u b =>
            have hi : (FieldType.bitfield u b).indirection = 1 := rfl
            have hua : 1 ≤ u.alignment := (hwf hi).1
            have hus : 1 ≤ u.size := (hwf hi).2
            have hbb : b ≠ 0 := by simpa [FieldType.bits] using hb
            by_cases hw : b ≤ u.size * 8
            · have h2 : bitfieldLayout false st₀ (FieldInfo.fresh (FieldType.bitfield u b))
                  = (st₂, fi₂) := by
                simp [layoutStep, fresh_type, FieldType.bits, hbb, bitfield_size, hw] at hstep
                exact hstep
              have hga : af = u.alignment := by
                rw [haf]
                simp [fieldAlign1, FieldType.indirection, FieldType.alignment, fresh_type]
                intro hz
                omega
              have htd : (match st₀.lastBT with
                  | none => true
                  | some l => (l.size != u.size) || (l.alignment != u.alignment)) = true := by
                rcases hlb : st₀.lastBT with _ | lt
                · rfl
                · by_cases hm1 : lt.size = u.size
                  · by_cases hm2 : lt.alignment = u.alignment
                    · -- impossible: the matching previous bitfield already contributed af to A
                      exfalso
                      have hinv := recalcGo_lastBT cfg false s.fields initRState f₀ st₀ none hgo
                      rcases hinv with h3 | h3 | ⟨nf, hnf, h4, h5⟩
                      · rw [hlb] at h3
                        simp [initRState] at h3
                      · rw [hlb] at h3
                        simp at h3
                      · rw [hlb] at h4
                        have hlt2 : lt = nf.2.type := by
                          injection h4.symm with h6
                          exact h6.symm
                        have hle2 := fieldAlign1_le_computeAlignment cfg s.fields nf hnf
                        rw [← hA] at hle2
                        have heq : fieldAlign1 cfg nf.2.type = af := by
                          rw [← hlt2, haf]
                          cases hct : lt with
                          | plain p =>
                            rw [← hlt2, hct] at h5
                            simp [FieldType.bits] at h5
                          | bitfield p c =>
                            have hm2' : p.alignment = u.alignment := by
                              rw [hct] at hm2
                              exact hm2
                            simp [fieldAlign1, FieldType.indirection, FieldType.alignment,
                              fresh_type, hm2']
                        rw [heq] at hle2
                        omega
                    · simp [hm2]
                  · simp [hm1]
              have hsize2 := bitfieldLayout_typeDiff_size st₀
                (FieldInfo.fresh (FieldType.bitfield u b)) u b rfl htd
              rw [h2] at hsize2
              rw [hga] at hlt
              rw [hsize2, hga]
              exact padTo_step_le st₀.size u.size u.alignment A hua hus hlt
            · simp [layoutStep, fresh_type, FieldType.bits, hbb, bitfield_size, hw] at hstep

theorem C8_addField_size_monotone_witness :
    ((Struct cfg64 false [("a", FieldType.plain int8T)]).1).size ≤
      ((defineProperty cfg64 (Struct cfg64 false [("a", FieldType.plain int8T)]).1 "b"
        (FieldType.plain int8T)).1).size :=
  C8_addField_size_monotone cfg64 (Struct cfg64 false [("a", FieldType.plain int8T)]).1 "b"
    (FieldType.plain int8T)
    (defineProperty cfg64 (Struct cfg64 false [("a", FieldType.plain int8T)]).1 "b"
      (FieldType.plain int8T)).1
    (by decide) (by decide) (by rfl) (by rfl)
    (by decide) (by decide) (by decide) (by rfl) (by rfl)

/-- Claim C4: once an instance has been constructed (`structNew`), any
`defineProperty` call and any `defineProperties` call with at least one
entry fails with the frozen-schema error, and the schema — field table,
offsets, size and alignment — is returned unchanged. -/
theorem C4_frozen_schema_rejects (cfg : RefCfg) (s : Schema) (name : String) (t : FieldType)
    (l : List (String × FieldType)) (hl : l ≠ []) :
    defineProperty cfg (structNew s) name t = (structNew s, some StructErr.frozenSchema) ∧
    defineProperties cfg (structNew s) l = (structNew s, some StructErr.frozenSchema) := by
  constructor
  · simp [defineProperty, internalDefineProperty, structNew]
  · cases l with
    | nil => exact absurd rfl hl
    | cons x xs =>
      simp [defineProperties, addAll, internalDefineProperty, structNew]

/-- Witness for C4: a frozen one-field schema rejects both a single field
definition and a one-entry batch definition. -/
theorem C4_frozen_schema_rejects_witness :
    defineProperty cfg64 (structNew schemaBeforeBadAdd) "x" (FieldType.plain int8T)
        = (structNew schemaBeforeBadAdd, some StructErr.frozenSchema) ∧
    defineProperties cfg64 (structNew schemaBeforeBadAdd) [("x", FieldType.plain int8T)]
        = (structNew schemaBeforeBadAdd, some StructErr.frozenSchema) :=
  C4_frozen_schema_rejects cfg64 schemaBeforeBadAdd "x" (FieldType.plain int8T)
    [("x", FieldType.plain int8T)] (by decide)

end RefStructBitfield
